import Mathlib

/-!
Shallow embedding of the AgentEscrow Solidity contract (embedded in the
repository README) together with its minimal JS wrapper surface.

Modelling conventions:
* addresses are `Nat`, with `0` standing for `address(0)` / the unassigned
  sentinel; external transaction senders are never `address(0)`, which the
  step relation records as `caller ≠ 0`;
* job ids are the value of the monotonic `jobCount` counter at creation
  time (the contract derives the id by hashing the counter together with
  caller data, which the engine assumes to be collision-free, so the
  counter itself is a faithful injective abstraction);
* `mapping(bytes32 => Job)` becomes a total function `Nat → Job` returning
  the all-default record on never-written keys, exactly like a Solidity
  mapping;
* the USDC token is modelled by `accounts : Nat → Nat` (external balances)
  plus `held : Nat` (the contract's own balance); `safeTransferFrom` in
  `createJob` fails when the payer lacks balance, `safeTransfer` moves
  held balance out;
* each external call is atomic: an operation either returns the fully
  updated state or an error with the state unchanged (`Except`).
-/

/-- The contract enum `JobStatus`: Created, Funded, Completed, Disputed,
Resolved, Cancelled. -/
inductive JobStatus where
  | Created
  | Funded
  | Completed
  | Disputed
  | Resolved
  | Cancelled
deriving DecidableEq, Repr

/-- The contract struct `Job`. -/
structure Job where
  client : Nat
  worker : Nat
  amount : Nat
  deadline : Nat
  jobHash : String
  status : JobStatus
  createdAt : Nat
deriving DecidableEq, Repr

/-- Default value of a `Job` storage slot that was never written. -/
def defaultJob : Job :=
  { client := 0, worker := 0, amount := 0, deadline := 0, jobHash := "",
    status := JobStatus.Created, createdAt := 0 }

/-- The revert reasons of the contract, one constructor per `require` string,
plus the `safeTransferFrom` failure. -/
inductive EscrowErr where
  | amountTooSmall            -- "Amount too small"
  | invalidDuration           -- "Invalid duration"
  | jobHashRequired           -- "Job hash required"
  | jobNotAvailable           -- "Job not available"
  | workerAlreadyAssigned     -- "Worker already assigned"
  | clientCannotBeWorker      -- "Client cannot be worker"
  | jobExpired                -- "Job expired"
  | onlyClientCanComplete     -- "Only client can complete"
  | invalidStatus             -- "Invalid status"
  | noWorkerAssigned          -- "No worker assigned"
  | onlyClientCanCancel       -- "Only client can cancel"
  | cannotCancel              -- "Cannot cancel"
  | workerAssignedUseDispute  -- "Worker assigned, use dispute"
  | notAParty                 -- "Not a party"
  | cannotDispute             -- "Cannot dispute"
  | notDisputed               -- "Not disputed"
  | resolutionPeriodNotEnded  -- "Resolution period not ended"
  | insufficientFunds         -- safeTransferFrom failure
deriving DecidableEq, Repr

/-- The error taxonomy of the specification (§7). -/
inductive ErrKind where
  | ValidationError
  | AuthorizationError
  | StateError
  | TimingError
  | InsufficientFunds
deriving DecidableEq, Repr

/-- Classification of each contract revert reason into the spec taxonomy. -/
def errKind : EscrowErr → ErrKind
  | .amountTooSmall => .ValidationError
  | .invalidDuration => .ValidationError
  | .jobHashRequired => .ValidationError
  | .jobNotAvailable => .StateError
  | .workerAlreadyAssigned => .StateError
  | .clientCannotBeWorker => .AuthorizationError
  | .jobExpired => .TimingError
  | .onlyClientCanComplete => .AuthorizationError
  | .invalidStatus => .StateError
  | .noWorkerAssigned => .StateError
  | .onlyClientCanCancel => .AuthorizationError
  | .cannotCancel => .StateError
  | .workerAssignedUseDispute => .StateError
  | .notAParty => .AuthorizationError
  | .cannotDispute => .StateError
  | .notDisputed => .StateError
  | .resolutionPeriodNotEnded => .TimingError
  | .insufficientFunds => .InsufficientFunds

/-- Contract constant `uint256 public constant MIN_AMOUNT = 1e6;`. -/
def MIN_AMOUNT : Nat := 1000000

/-- Contract constant `uint256 public constant MAX_DURATION = 30 days;` (seconds). -/
def MAX_DURATION : Nat := 2592000

/-- Seven days in seconds, the dispute resolution window in `resolveDispute`. -/
def SEVEN_DAYS : Nat := 604800

/-- Whole-contract storage plus the modelled USDC balances. -/
structure EscrowState where
  jobs : Nat → Job
  agentJobs : Nat → List Nat
  jobCount : Nat
  held : Nat
  accounts : Nat → Nat

/-- Contract storage right after the constructor, with arbitrary external
USDC balances. -/
def initState (acct : Nat → Nat) : EscrowState :=
  { jobs := fun _ => defaultJob, agentJobs := fun _ => [],
    jobCount := 0, held := 0, accounts := acct }

/-- Contract entry point `function createJob(address worker, uint256 amount,
uint256 duration, string calldata jobHash) external nonReentrant returns
(bytes32 jobId)`. -/
def createJob (s : EscrowState) (caller worker amount duration : Nat)
    (jobHash : String) (now : Nat) : Except EscrowErr (EscrowState × Nat) :=
  if amount < MIN_AMOUNT then .error .amountTooSmall
  else if duration = 0 ∨ MAX_DURATION < duration then .error .invalidDuration
  else if jobHash = "" then .error .jobHashRequired
  else if s.accounts caller < amount then .error .insufficientFunds
  else
    let jobId := s.jobCount
    let job : Job :=
      { client := caller, worker := worker, amount := amount,
        deadline := now + duration, jobHash := jobHash,
        status := JobStatus.Created, createdAt := now }
    .ok ({ jobs := fun k => if k = jobId then job else s.jobs k,
           agentJobs := fun a => if a = caller then s.agentJobs a ++ [jobId]
                                 else s.agentJobs a,
           jobCount := s.jobCount + 1,
           held := s.held + amount,
           accounts := fun a => if a = caller then s.accounts a - amount
                                else s.accounts a },
         jobId)

/-- Contract entry point `function acceptJob(bytes32 jobId) external nonReentrant`. -/
def acceptJob (s : EscrowState) (caller jobId now : Nat) :
    Except EscrowErr EscrowState :=
  let job := s.jobs jobId
  if job.status ≠ JobStatus.Created then .error .jobNotAvailable
  else if job.worker ≠ 0 then .error .workerAlreadyAssigned
  else if caller = job.client then .error .clientCannotBeWorker
  else if ¬ now < job.deadline then .error .jobExpired
  else
    .ok { s with
          jobs := fun k => if k = jobId then
                             { job with worker := caller,
                                        status := JobStatus.Funded }
                           else s.jobs k,
          agentJobs := fun a => if a = caller then s.agentJobs a ++ [jobId]
                                else s.agentJobs a }

/-- Contract entry point `function completeJob(bytes32 jobId) external nonReentrant`. -/
def completeJob (s : EscrowState) (caller jobId : Nat) :
    Except EscrowErr EscrowState :=
  let job := s.jobs jobId
  if caller ≠ job.client then .error .onlyClientCanComplete
  else if ¬ (job.status = JobStatus.Funded ∨ job.status = JobStatus.Created) then
    .error .invalidStatus
  else if job.worker = 0 then .error .noWorkerAssigned
  else
    .ok { s with
          jobs := fun k => if k = jobId then
                             { job with status := JobStatus.Completed }
                           else s.jobs k,
          held := s.held - job.amount,
          accounts := fun a => if a = job.worker then s.accounts a + job.amount
                               else s.accounts a }

/-- Contract entry point `function cancelJob(bytes32 jobId) external nonReentrant`. -/
def cancelJob (s : EscrowState) (caller jobId now : Nat) :
    Except EscrowErr EscrowState :=
  let job := s.jobs jobId
  if caller ≠ job.client then .error .onlyClientCanCancel
  else if job.status ≠ JobStatus.Created then .error .cannotCancel
  else if ¬ (job.worker = 0 ∨ job.deadline < now) then
    .error .workerAssignedUseDispute
  else
    .ok { s with
          jobs := fun k => if k = jobId then
                             { job with status := JobStatus.Cancelled }
                           else s.jobs k,
          held := s.held - job.amount,
          accounts := fun a => if a = job.client then s.accounts a + job.amount
                               else s.accounts a }

/-- Contract entry point `function disputeJob(bytes32 jobId) external nonReentrant`. -/
def disputeJob (s : EscrowState) (caller jobId : Nat) :
    Except EscrowErr EscrowState :=
  let job := s.jobs jobId
  if ¬ (caller = job.client ∨ caller = job.worker) then .error .notAParty
  else if job.status ≠ JobStatus.Funded then .error .cannotDispute
  else
    .ok { s with
          jobs := fun k => if k = jobId then
                             { job with status := JobStatus.Disputed }
                           else s.jobs k }

/-- Contract entry point `function resolveDispute(bytes32 jobId) external
nonReentrant`. The contract places no restriction on the sender of this call. -/
def resolveDispute (s : EscrowState) (jobId now : Nat) :
    Except EscrowErr EscrowState :=
  let job := s.jobs jobId
  if job.status ≠ JobStatus.Disputed then .error .notDisputed
  else if ¬ job.deadline + SEVEN_DAYS < now then .error .resolutionPeriodNotEnded
  else
    .ok { s with
          jobs := fun k => if k = jobId then
                             { job with status := JobStatus.Resolved }
                           else s.jobs k,
          held := s.held - job.amount,
          accounts := fun a => if a = job.client then s.accounts a + job.amount
                               else s.accounts a }

/-- Contract view `function getJob(bytes32 jobId) external view` — returns the stored
record (the mapping default for never-created ids), never failing. -/
def getJob (s : EscrowState) (jobId : Nat) : Job := s.jobs jobId

/-- One successful external call against the contract. Ethereum guarantees
the transaction sender is never `address(0)`. -/
inductive Step : EscrowState → EscrowState → Prop where
  | create (s s1 : EscrowState) (caller worker amount duration now jobId : Nat)
      (jobHash : String) (hc : caller ≠ 0)
      (h : createJob s caller worker amount duration jobHash now = .ok (s1, jobId)) :
      Step s s1
  | accept (s s1 : EscrowState) (caller jobId now : Nat) (hc : caller ≠ 0)
      (h : acceptJob s caller jobId now = .ok s1) : Step s s1
  | complete (s s1 : EscrowState) (caller jobId : Nat) (hc : caller ≠ 0)
      (h : completeJob s caller jobId = .ok s1) : Step s s1
  | cancel (s s1 : EscrowState) (caller jobId now : Nat) (hc : caller ≠ 0)
      (h : cancelJob s caller jobId now = .ok s1) : Step s s1
  | dispute (s s1 : EscrowState) (caller jobId : Nat) (hc : caller ≠ 0)
      (h : disputeJob s caller jobId = .ok s1) : Step s s1
  | resolve (s s1 : EscrowState) (jobId now : Nat)
      (h : resolveDispute s jobId now = .ok s1) : Step s s1

/-- States reachable from a freshly deployed contract (any initial USDC
distribution). -/
def Reachable (s : EscrowState) : Prop :=
  ∃ acct, Relation.ReflTransGen Step (initState acct) s

/-- Amount a job contributes to the custody invariant: its full `amount`
while in an escrow-holding status, nothing once disbursed. -/
def lockedAmount (j : Job) : Nat :=
  if j.status = JobStatus.Created ∨ j.status = JobStatus.Funded ∨
     j.status = JobStatus.Disputed then j.amount else 0

/-- Global custody conservation (spec §3): the held balance equals the sum
of `amount` over all jobs in {Created, Funded, Disputed}. -/
def conservation (s : EscrowState) : Prop :=
  s.held = ∑ id ∈ Finset.range s.jobCount, lockedAmount (s.jobs id)

/-- Storage slots at or past the job counter were never written. -/
def freshDefault (s : EscrowState) : Prop :=
  ∀ id, s.jobCount ≤ id → s.jobs id = defaultJob

/-- Inductive invariant carried through every step. -/
def EscrowInv (s : EscrowState) : Prop := freshDefault s ∧ conservation s

/-- Whether an external call succeeded. -/
def okB {a : Type} (r : Except EscrowErr a) : Bool :=
  match r with
  | .ok _ => true
  | .error _ => false

/-- A generous initial USDC distribution used in concrete witnesses. -/
def exAcct : Nat → Nat := fun _ => 10000000

def exInit : EscrowState := initState exAcct

/-- After client 1 creates a job pre-assigning worker 2 (amount `MIN_AMOUNT`,
duration 100, at time 0): job 0 is Created with `worker = 2`. -/
def sPre : EscrowState :=
  ((createJob exInit 1 2 1000000 100 "hash" 0).toOption.map Prod.fst).getD exInit

/-- After client 1 additionally calls `completeJob` on job 0 of `sPre`. -/
def sPreDone : EscrowState := (completeJob sPre 1 0).toOption.getD sPre

/-- After client 1 creates an open job (worker sentinel 0). -/
def sOpen : EscrowState :=
  ((createJob exInit 1 0 1000000 100 "hash" 0).toOption.map Prod.fst).getD exInit

/-- After worker 2 accepts job 0 of `sOpen` at time 5. -/
def sFunded : EscrowState := (acceptJob sOpen 2 0 5).toOption.getD sOpen

/-- After worker 2 disputes job 0 of `sFunded`. -/
def sDisputed : EscrowState := (disputeJob sFunded 2 0).toOption.getD sFunded

/-- Statuses from which no further transition is possible. -/
def isTerminal (st : JobStatus) : Bool :=
  match st with
  | .Completed => true
  | .Resolved => true
  | .Cancelled => true
  | _ => false

/-- The transitions the code actually performs: the claimed graph plus the
direct `Created → Completed` edge taken by `completeJob` on a job whose
worker was pre-assigned at creation. -/
def edgeAmended : JobStatus → JobStatus → Bool
  | .Created, .Funded => true
  | .Created, .Completed => true
  | .Created, .Cancelled => true
  | .Funded, .Completed => true
  | .Funded, .Disputed => true
  | .Disputed, .Resolved => true
  | _, _ => false

/-- Modelled from the claim's wording: the graph
`Created → Funded → {Completed | Disputed}; Disputed → Resolved;
Created → Cancelled`, with no other edge. -/
def specGraphEdge : JobStatus → JobStatus → Bool
  | .Created, .Funded => true
  | .Funded, .Completed => true
  | .Funded, .Disputed => true
  | .Disputed, .Resolved => true
  | .Created, .Cancelled => true
  | _, _ => false

/-- A topological height for the amended graph: every edge strictly
increases it. -/
def statusRank : JobStatus → Nat
  | .Created => 0
  | .Funded => 1
  | .Disputed => 2
  | .Completed => 3
  | .Resolved => 4
  | .Cancelled => 5

/-- A job whose worker was assigned at creation: worker set, status still
confined to {Created, Completed, Cancelled}. -/
def preassignedLocked (s : EscrowState) (id : Nat) : Prop :=
  (s.jobs id).worker ≠ 0 ∧
  ((s.jobs id).status = JobStatus.Created ∨
   (s.jobs id).status = JobStatus.Completed ∨
   (s.jobs id).status = JobStatus.Cancelled)


theorem okB_eq_true {a : Type} {r : Except EscrowErr a} :
    okB r = true ↔ ∃ x, r = .ok x := by
  cases r <;> simp [okB]



/-- Unpacking a successful `createJob`: the validation guards held and the
resulting state is the explicit update. -/
theorem createJob_ok_elim {s : EscrowState} {c w a d now jid : Nat} {dh : String}
    {s1 : EscrowState}
    (h : createJob s c w a d dh now = .ok (s1, jid)) :
    MIN_AMOUNT ≤ a ∧ 0 < d ∧ d ≤ MAX_DURATION ∧ dh ≠ "" ∧ a ≤ s.accounts c ∧
    jid = s.jobCount ∧
    s1 = { jobs := fun k => if k = s.jobCount then
                              { client := c, worker := w, amount := a,
                                deadline := now + d, jobHash := dh,
                                status := JobStatus.Created, createdAt := now }
                            else s.jobs k,
           agentJobs := fun x => if x = c then s.agentJobs x ++ [s.jobCount]
                                 else s.agentJobs x,
           jobCount := s.jobCount + 1,
           held := s.held + a,
           accounts := fun x => if x = c then s.accounts x - a
                                else s.accounts x } := by
  unfold createJob at h
  split_ifs at h with h1 h2 h3 h4
  simp only [Except.ok.injEq, Prod.mk.injEq] at h
  obtain ⟨hs, hj⟩ := h
  push_neg at h1 h2 h4
  exact ⟨h1, Nat.pos_of_ne_zero h2.1, h2.2, h3, h4, hj.symm, hs.symm⟩

/-- Unpacking a successful `acceptJob`. -/
theorem acceptJob_ok_elim {s : EscrowState} {c jid now : Nat} {s1 : EscrowState}
    (h : acceptJob s c jid now = .ok s1) :
    (s.jobs jid).status = JobStatus.Created ∧ (s.jobs jid).worker = 0 ∧
    c ≠ (s.jobs jid).client ∧ now < (s.jobs jid).deadline ∧
    s1 = { s with
           jobs := fun k => if k = jid then
                              { s.jobs jid with worker := c,
                                                status := JobStatus.Funded }
                            else s.jobs k,
           agentJobs := fun x => if x = c then s.agentJobs x ++ [jid]
                                 else s.agentJobs x } := by
  rw [acceptJob] at h
  split_ifs at h with h1 h2 h3 h4
  simp only [Except.ok.injEq] at h
  push_neg at h1 h2 h4
  exact ⟨h1, h2, h3, h4, h.symm⟩

/-- Unpacking a successful `completeJob`. -/
theorem completeJob_ok_elim {s : EscrowState} {c jid : Nat} {s1 : EscrowState}
    (h : completeJob s c jid = .ok s1) :
    c = (s.jobs jid).client ∧
    ((s.jobs jid).status = JobStatus.Funded ∨ (s.jobs jid).status = JobStatus.Created) ∧
    (s.jobs jid).worker ≠ 0 ∧
    s1 = { s with
           jobs := fun k => if k = jid then
                              { s.jobs jid with status := JobStatus.Completed }
                            else s.jobs k,
           held := s.held - (s.jobs jid).amount,
           accounts := fun x => if x = (s.jobs jid).worker then
                                  s.accounts x + (s.jobs jid).amount
                                else s.accounts x } := by
  rw [completeJob] at h
  split_ifs at h with h1 h2 h3
  simp only [Except.ok.injEq] at h
  push_neg at h1 h2
  exact ⟨h1, h2, h3, h.symm⟩

/-- Unpacking a successful `cancelJob`. -/
theorem cancelJob_ok_elim {s : EscrowState} {c jid now : Nat} {s1 : EscrowState}
    (h : cancelJob s c jid now = .ok s1) :
    c = (s.jobs jid).client ∧ (s.jobs jid).status = JobStatus.Created ∧
    ((s.jobs jid).worker = 0 ∨ (s.jobs jid).deadline < now) ∧
    s1 = { s with
           jobs := fun k => if k = jid then
                              { s.jobs jid with status := JobStatus.Cancelled }
                            else s.jobs k,
           held := s.held - (s.jobs jid).amount,
           accounts := fun x => if x = (s.jobs jid).client then
                                  s.accounts x + (s.jobs jid).amount
                                else s.accounts x } := by
  rw [cancelJob] at h
  split_ifs at h with h1 h2 h3
  simp only [Except.ok.injEq] at h
  push_neg at h1 h2
  exact ⟨h1, h2, h3, h.symm⟩

/-- Unpacking a successful `disputeJob`. -/
theorem disputeJob_ok_elim {s : EscrowState} {c jid : Nat} {s1 : EscrowState}
    (h : disputeJob s c jid = .ok s1) :
    (c = (s.jobs jid).client ∨ c = (s.jobs jid).worker) ∧
    (s.jobs jid).status = JobStatus.Funded ∧
    s1 = { s with
           jobs := fun k => if k = jid then
                              { s.jobs jid with status := JobStatus.Disputed }
                            else s.jobs k } := by
  rw [disputeJob] at h
  split_ifs at h with h1 h2
  simp only [Except.ok.injEq] at h
  push_neg at h2
  exact ⟨h1, h2, h.symm⟩

/-- Unpacking a successful `resolveDispute`. -/
theorem resolveDispute_ok_elim {s : EscrowState} {jid now : Nat} {s1 : EscrowState}
    (h : resolveDispute s jid now = .ok s1) :
    (s.jobs jid).status = JobStatus.Disputed ∧
    (s.jobs jid).deadline + SEVEN_DAYS < now ∧
    s1 = { s with
           jobs := fun k => if k = jid then
                              { s.jobs jid with status := JobStatus.Resolved }
                            else s.jobs k,
           held := s.held - (s.jobs jid).amount,
           accounts := fun x => if x = (s.jobs jid).client then
                                  s.accounts x + (s.jobs jid).amount
                                else s.accounts x } := by
  rw [resolveDispute] at h
  split_ifs at h with h1 h2
  simp only [Except.ok.injEq] at h
  push_neg at h1
  exact ⟨h1, h2, h.symm⟩



/-- C2: `resolveDispute` succeeds exactly on a Disputed job strictly past
`deadline + 7 days`; before the window it fails `resolutionPeriodNotEnded`
(a TimingError), on a non-Disputed job it fails `notDisputed` (a
StateError); on success the job becomes Resolved and the full `amount`
goes to the client — never a split. -/
theorem resolveDispute_spec (s : EscrowState) (jid now : Nat) :
    (okB (resolveDispute s jid now) = true ↔
      (s.jobs jid).status = JobStatus.Disputed ∧
      (s.jobs jid).deadline + SEVEN_DAYS < now) ∧
    ((s.jobs jid).status = JobStatus.Disputed →
      ¬ (s.jobs jid).deadline + SEVEN_DAYS < now →
      resolveDispute s jid now = .error .resolutionPeriodNotEnded ∧
      errKind .resolutionPeriodNotEnded = .TimingError) ∧
    ((s.jobs jid).status ≠ JobStatus.Disputed →
      resolveDispute s jid now = .error .notDisputed ∧
      errKind .notDisputed = .StateError) ∧
    (∀ s1, resolveDispute s jid now = .ok s1 →
      (s1.jobs jid).status = JobStatus.Resolved ∧
      s1.accounts (s.jobs jid).client
        = s.accounts (s.jobs jid).client + (s.jobs jid).amount ∧
      s1.held = s.held - (s.jobs jid).amount) := by
  refine ⟨?_, ?_, ?_, ?_⟩
  · constructor
    · intro hok
      obtain ⟨s1, hs1⟩ := okB_eq_true.mp hok
      obtain ⟨a, b, _⟩ := resolveDispute_ok_elim hs1
      exact ⟨a, b⟩
    · rintro ⟨a, b⟩
      rw [resolveDispute]
      simp [a, b, okB]
  · intro h1 h2
    refine ⟨?_, rfl⟩
    rw [resolveDispute]
    simp [h1, h2]
  · intro h1
    refine ⟨?_, rfl⟩
    rw [resolveDispute]
    simp [h1]
  · intro s1 h
    obtain ⟨h1, h2, h3⟩ := resolveDispute_ok_elim h
    subst h3
    simp

/-- Closed witness for `resolveDispute_spec`: on the concrete disputed state
`sDisputed`, resolving at time 0 (before the window) fails with the
TimingError `resolutionPeriodNotEnded`. -/
theorem resolveDispute_spec_witness :
    resolveDispute sDisputed 0 0 = .error .resolutionPeriodNotEnded ∧
    errKind .resolutionPeriodNotEnded = .TimingError :=
  (resolveDispute_spec sDisputed 0 0).2.1 (by decide) (by decide)


/-- C3: `completeJob` succeeds exactly when the caller is the client, the
status is Created or Funded, and a worker is assigned; callers other than
the client get the AuthorizationError `onlyClientCanComplete`, a terminal
status gets the StateError `invalidStatus`, a missing worker the
StateError `noWorkerAssigned`; success sets Completed and pays the worker
the full `amount`. -/
theorem completeJob_spec (s : EscrowState) (c jid : Nat) :
    (okB (completeJob s c jid) = true ↔
      c = (s.jobs jid).client ∧
      ((s.jobs jid).status = JobStatus.Created ∨
       (s.jobs jid).status = JobStatus.Funded) ∧
      (s.jobs jid).worker ≠ 0) ∧
    (c ≠ (s.jobs jid).client →
      completeJob s c jid = .error .onlyClientCanComplete ∧
      errKind .onlyClientCanComplete = .AuthorizationError) ∧
    (c = (s.jobs jid).client → isTerminal (s.jobs jid).status = true →
      completeJob s c jid = .error .invalidStatus ∧
      errKind .invalidStatus = .StateError) ∧
    (c = (s.jobs jid).client →
      ((s.jobs jid).status = JobStatus.Created ∨
       (s.jobs jid).status = JobStatus.Funded) →
      (s.jobs jid).worker = 0 →
      completeJob s c jid = .error .noWorkerAssigned ∧
      errKind .noWorkerAssigned = .StateError) ∧
    (∀ s1, completeJob s c jid = .ok s1 →
      (s1.jobs jid).status = JobStatus.Completed ∧
      s1.accounts (s.jobs jid).worker
        = s.accounts (s.jobs jid).worker + (s.jobs jid).amount ∧
      s1.held = s.held - (s.jobs jid).amount) := by
  refine ⟨?_, ?_, ?_, ?_, ?_⟩
  · constructor
    · intro hok
      obtain ⟨s1, hs1⟩ := okB_eq_true.mp hok
      obtain ⟨a, b, w, _⟩ := completeJob_ok_elim hs1
      exact ⟨a, b.symm, w⟩
    · rintro ⟨a, b, w⟩
      rw [completeJob]
      simp [a, w, okB, b.symm]
  · intro h1
    refine ⟨?_, rfl⟩
    rw [completeJob]
    simp [h1]
  · intro h1 h2
    refine ⟨?_, rfl⟩
    rw [completeJob]
    have hb : ¬ ((s.jobs jid).status = JobStatus.Funded ∨
                 (s.jobs jid).status = JobStatus.Created) := by
      cases hst : (s.jobs jid).status <;> simp_all [isTerminal]
    simp [h1, hb]
  · intro h1 h2 h3
    refine ⟨?_, rfl⟩
    rw [completeJob]
    simp [h1, h2.symm, h3]
  · intro s1 h
    obtain ⟨h1, h2, h3, h4⟩ := completeJob_ok_elim h
    subst h4
    simp

/-- Closed witness for `completeJob_spec`: in the concrete state `sPre`
(job 0 Created with pre-assigned worker 2), the client can complete. -/
theorem completeJob_spec_witness :
    okB (completeJob sPre 1 0) = true :=
  (completeJob_spec sPre 1 0).1.mpr (by decide)

/-- C8: `cancelJob` succeeds exactly when the caller is the client, the
status is Created, and the worker is unassigned or the deadline is
strictly past; on success the job becomes Cancelled and the full `amount`
is pushed back to the client. -/
theorem cancelJob_spec (s : EscrowState) (c jid now : Nat) :
    (okB (cancelJob s c jid now) = true ↔
      c = (s.jobs jid).client ∧
      (s.jobs jid).status = JobStatus.Created ∧
      ((s.jobs jid).worker = 0 ∨ (s.jobs jid).deadline < now)) ∧
    (c ≠ (s.jobs jid).client →
      cancelJob s c jid now = .error .onlyClientCanCancel ∧
      errKind .onlyClientCanCancel = .AuthorizationError) ∧
    (c = (s.jobs jid).client → (s.jobs jid).status ≠ JobStatus.Created →
      cancelJob s c jid now = .error .cannotCancel ∧
      errKind .cannotCancel = .StateError) ∧
    (∀ s1, cancelJob s c jid now = .ok s1 →
      (s1.jobs jid).status = JobStatus.Cancelled ∧
      s1.accounts (s.jobs jid).client
        = s.accounts (s.jobs jid).client + (s.jobs jid).amount ∧
      s1.held = s.held - (s.jobs jid).amount) := by
  refine ⟨?_, ?_, ?_, ?_⟩
  · constructor
    · intro hok
      obtain ⟨s1, hs1⟩ := okB_eq_true.mp hok
      obtain ⟨a, b, w, _⟩ := cancelJob_ok_elim hs1
      exact ⟨a, b, w⟩
    · rintro ⟨a, b, w⟩
      rw [cancelJob]
      simp [a, b, w, okB]
  · intro h1
    refine ⟨?_, rfl⟩
    rw [cancelJob]
    simp [h1]
  · intro h1 h2
    refine ⟨?_, rfl⟩
    rw [cancelJob]
    simp [h1, h2]
  · intro s1 h
    obtain ⟨h1, h2, h3, h4⟩ := cancelJob_ok_elim h
    subst h4
    simp

/-- Closed witness for `cancelJob_spec`: in `sOpen` (open job 0 with
deadline 100) the client cancels at time 101, past the deadline. -/
theorem cancelJob_spec_witness :
    okB (cancelJob sOpen 1 0 101) = true :=
  (cancelJob_spec sOpen 1 0 101).1.mpr (by decide)

/-- C7: `createJob` boundary validation, tracing the `require` chain of the
contract: the minimum amount and maximum duration are accepted, one
minor-unit less than the minimum and one second more than the maximum (as
well as a zero duration and an empty descriptor) are rejected with
ValidationErrors. -/
theorem createJob_boundary (s : EscrowState) (c w a d now : Nat) (dh : String) :
    (dh ≠ "" → 0 < d → d ≤ MAX_DURATION → MIN_AMOUNT ≤ s.accounts c →
      okB (createJob s c w MIN_AMOUNT d dh now) = true) ∧
    (createJob s c w (MIN_AMOUNT - 1) d dh now = .error .amountTooSmall ∧
      errKind .amountTooSmall = .ValidationError) ∧
    (dh ≠ "" → MIN_AMOUNT ≤ a → a ≤ s.accounts c →
      okB (createJob s c w a MAX_DURATION dh now) = true) ∧
    (MIN_AMOUNT ≤ a →
      createJob s c w a (MAX_DURATION + 1) dh now = .error .invalidDuration ∧
      errKind .invalidDuration = .ValidationError) ∧
    (MIN_AMOUNT ≤ a →
      createJob s c w a 0 dh now = .error .invalidDuration) ∧
    (MIN_AMOUNT ≤ a → 0 < d → d ≤ MAX_DURATION →
      createJob s c w a d ("" : String) now = .error .jobHashRequired ∧
      errKind .jobHashRequired = .ValidationError) := by
  refine ⟨?_, ⟨?_, rfl⟩, ?_, fun ha => ⟨?_, rfl⟩, fun ha => ?_, fun ha hd1 hd2 => ⟨?_, rfl⟩⟩
  · intro hdh hd1 hd2 hacct
    rw [createJob]
    have h1 : ¬ MIN_AMOUNT < MIN_AMOUNT := lt_irrefl _
    have h2 : ¬ (d = 0 ∨ MAX_DURATION < d) := by omega
    have h4 : ¬ s.accounts c < MIN_AMOUNT := not_lt.mpr hacct
    simp [h1, h2, h4, hdh, okB]
  · rw [createJob]
    have h1 : MIN_AMOUNT - 1 < MIN_AMOUNT := by simp [MIN_AMOUNT]
    simp [h1]
  · intro hdh ha hacct
    rw [createJob]
    have h1 : ¬ a < MIN_AMOUNT := not_lt.mpr ha
    have h2 : ¬ (MAX_DURATION = 0 ∨ MAX_DURATION < MAX_DURATION) := by
      simp [MAX_DURATION]
    have h4 : ¬ s.accounts c < a := not_lt.mpr hacct
    simp [h1, h2, h4, hdh, okB, MAX_DURATION]
  · rw [createJob]
    have h1 : ¬ a < MIN_AMOUNT := not_lt.mpr ha
    have h2 : MAX_DURATION + 1 = 0 ∨ MAX_DURATION < MAX_DURATION + 1 := by omega
    simp [h1, h2]
  · rw [createJob]
    have h1 : ¬ a < MIN_AMOUNT := not_lt.mpr ha
    simp [h1]
  · rw [createJob]
    have h1 : ¬ a < MIN_AMOUNT := not_lt.mpr ha
    have h2 : ¬ (d = 0 ∨ MAX_DURATION < d) := by omega
    simp [h1, h2]

/-- Closed witness for `createJob_boundary` at concrete arguments: a job
with exactly the minimum amount is accepted from `exInit`. -/
theorem createJob_boundary_witness :
    okB (createJob exInit 1 0 MIN_AMOUNT 100 "spec" 0) = true :=
  (createJob_boundary exInit 1 0 MIN_AMOUNT 100 0 "spec").1
    (by decide) (by decide) (by decide) (by decide)

/-- Exchanging one summand of a range sum: if `g` agrees with `f` away from
`jid < n`, the two sums differ exactly by the `jid` terms. -/
theorem sum_swap_at {n jid : Nat} {f g : Nat → Nat} (hjid : jid < n)
    (h : ∀ k, k ≠ jid → g k = f k) :
    (∑ k ∈ Finset.range n, g k) + f jid
      = (∑ k ∈ Finset.range n, f k) + g jid := by
  have hmem : jid ∈ Finset.range n := Finset.mem_range.mpr hjid
  have hg := Finset.sum_erase_add (Finset.range n) g hmem
  have hf := Finset.sum_erase_add (Finset.range n) f hmem
  have herase : (∑ k ∈ (Finset.range n).erase jid, g k)
      = ∑ k ∈ (Finset.range n).erase jid, f k :=
    Finset.sum_congr rfl fun k hk => h k (Finset.ne_of_mem_erase hk)
  omega

/-- A single summand is bounded by the whole range sum. -/
theorem single_le_range_sum {n jid : Nat} (f : Nat → Nat) (hjid : jid < n) :
    f jid ≤ ∑ k ∈ Finset.range n, f k :=
  Finset.single_le_sum (fun _ _ => Nat.zero_le _) (Finset.mem_range.mpr hjid)

/-- Conservation survives a payout step: one job leaves the escrow-holding
statuses, its full former `lockedAmount` leaves the held balance. -/
theorem conservation_disburse {s s1 : EscrowState} {jid : Nat}
    (hcons : conservation s) (hjid : jid < s.jobCount)
    (hcount : s1.jobCount = s.jobCount)
    (hjobs : ∀ k, k ≠ jid → s1.jobs k = s.jobs k)
    (hlock : lockedAmount (s1.jobs jid) = 0)
    (hheld : s1.held = s.held - lockedAmount (s.jobs jid)) :
    conservation s1 := by
  have hswap := sum_swap_at (f := fun k => lockedAmount (s.jobs k))
    (g := fun k => lockedAmount (s1.jobs k)) hjid
    (fun k hk => by simp only [hjobs k hk])
  have hle := single_le_range_sum (fun k => lockedAmount (s.jobs k)) hjid
  unfold conservation at hcons ⊢
  rw [hcount, hheld, hcons]
  simp only at hswap
  omega

/-- Conservation survives a step that keeps the held balance and every
job's `lockedAmount`. -/
theorem conservation_same_lock {s s1 : EscrowState} {jid : Nat}
    (hcons : conservation s)
    (hcount : s1.jobCount = s.jobCount) (hheld : s1.held = s.held)
    (hjobs : ∀ k, k ≠ jid → s1.jobs k = s.jobs k)
    (hlock : lockedAmount (s1.jobs jid) = lockedAmount (s.jobs jid)) :
    conservation s1 := by
  unfold conservation at hcons ⊢
  rw [hcount, hheld, hcons]
  refine Finset.sum_congr rfl fun k _ => ?_
  rcases eq_or_ne k jid with rfl | hk
  · exact hlock.symm
  · rw [hjobs k hk]

/-- Freshness survives any step that rewrites a single existing slot. -/
theorem freshDefault_update {s s1 : EscrowState} {jid : Nat}
    (hfresh : freshDefault s) (hjid : jid < s.jobCount)
    (hcount : s1.jobCount = s.jobCount)
    (hjobs : ∀ k, k ≠ jid → s1.jobs k = s.jobs k) :
    freshDefault s1 := by
  intro id hid
  rw [hcount] at hid
  rw [hjobs id (by omega)]
  exact hfresh id hid

/-- Conservation survives `createJob`: one new slot is appended whose
`lockedAmount` is exactly the pulled amount. -/
theorem conservation_create {s s1 : EscrowState} {a : Nat}
    (hcons : conservation s)
    (hcount : s1.jobCount = s.jobCount + 1)
    (hheld : s1.held = s.held + a)
    (hjobs : ∀ k, k ≠ s.jobCount → s1.jobs k = s.jobs k)
    (hnew : lockedAmount (s1.jobs s.jobCount) = a) :
    conservation s1 := by
  unfold conservation at hcons ⊢
  rw [hcount, Finset.sum_range_succ, hheld, hcons, hnew]
  have hrest : (∑ k ∈ Finset.range s.jobCount, lockedAmount (s1.jobs k))
      = ∑ k ∈ Finset.range s.jobCount, lockedAmount (s.jobs k) :=
    Finset.sum_congr rfl fun k hk => by
      rw [hjobs k (by have := Finset.mem_range.mp hk; omega)]
  omega

/-- Freshness survives `createJob`. -/
theorem freshDefault_create {s s1 : EscrowState}
    (hfresh : freshDefault s)
    (hcount : s1.jobCount = s.jobCount + 1)
    (hjobs : ∀ k, k ≠ s.jobCount → s1.jobs k = s.jobs k) :
    freshDefault s1 := by
  intro id hid
  rw [hcount] at hid
  rw [hjobs id (by omega)]
  exact hfresh id (by omega)

/-- The invariant holds on a freshly deployed contract. -/
theorem escrowInv_init (acct : Nat → Nat) : EscrowInv (initState acct) := by
  refine ⟨fun id _ => rfl, ?_⟩
  simp [conservation, initState]

/-- Every successful external call preserves the custody invariant. -/
theorem escrowInv_step {s s1 : EscrowState} (hInv : EscrowInv s)
    (hstep : Step s s1) : EscrowInv s1 := by
  obtain ⟨hfresh, hcons⟩ := hInv
  cases hstep with
  | create c w a d now jid dh hc h =>
      obtain ⟨_, _, _, _, _, hjid, hs1⟩ := createJob_ok_elim h
      subst hs1
      have hjobs : ∀ k, k ≠ s.jobCount →
          (if k = s.jobCount then
             { client := c, worker := w, amount := a, deadline := now + d,
               jobHash := dh, status := JobStatus.Created,
               createdAt := now } else s.jobs k) = s.jobs k :=
        fun k hk => if_neg hk
      exact ⟨freshDefault_create hfresh rfl hjobs,
             conservation_create hcons rfl rfl hjobs (by simp [lockedAmount])⟩
  | accept c jid now hc h =>
      obtain ⟨h1, h2, h3, h4, hs1⟩ := acceptJob_ok_elim h
      have hjid : jid < s.jobCount := by
        by_contra hge
        have hdef := hfresh jid (by omega)
        rw [hdef] at h4
        simp [defaultJob] at h4
      subst hs1
      have hjobs : ∀ k, k ≠ jid →
          (if k = jid then
             { s.jobs jid with worker := c, status := JobStatus.Funded }
           else s.jobs k) = s.jobs k := fun k hk => if_neg hk
      refine ⟨freshDefault_update hfresh hjid rfl hjobs, ?_⟩
      exact conservation_same_lock hcons rfl rfl hjobs
        (by simp [lockedAmount, h1])
  | complete c jid hc h =>
      obtain ⟨h1, h2, h3, hs1⟩ := completeJob_ok_elim h
      have hjid : jid < s.jobCount := by
        by_contra hge
        have hdef := hfresh jid (by omega)
        rw [hdef] at h3
        simp [defaultJob] at h3
      subst hs1
      have hjobs : ∀ k, k ≠ jid →
          (if k = jid then
             { s.jobs jid with status := JobStatus.Completed }
           else s.jobs k) = s.jobs k := fun k hk => if_neg hk
      refine ⟨freshDefault_update hfresh hjid rfl hjobs, ?_⟩
      refine conservation_disburse hcons hjid rfl hjobs
        (by simp [lockedAmount]) ?_
      have hl : lockedAmount (s.jobs jid) = (s.jobs jid).amount := by
        rcases h2 with h | h <;> simp [lockedAmount, h]
      rw [hl]
  | cancel c jid now hc h =>
      obtain ⟨h1, h2, h3, hs1⟩ := cancelJob_ok_elim h
      have hjid : jid < s.jobCount := by
        by_contra hge
        have hdef := hfresh jid (by omega)
        rw [hdef] at h1
        exact hc (h1.trans rfl)
      subst hs1
      have hjobs : ∀ k, k ≠ jid →
          (if k = jid then
             { s.jobs jid with status := JobStatus.Cancelled }
           else s.jobs k) = s.jobs k := fun k hk => if_neg hk
      refine ⟨freshDefault_update hfresh hjid rfl hjobs, ?_⟩
      refine conservation_disburse hcons hjid rfl hjobs
        (by simp [lockedAmount]) ?_
      have hl : lockedAmount (s.jobs jid) = (s.jobs jid).amount := by
        simp [lockedAmount, h2]
      rw [hl]
  | dispute c jid hc h =>
      obtain ⟨h1, h2, hs1⟩ := disputeJob_ok_elim h
      have hjid : jid < s.jobCount := by
        by_contra hge
        have hdef := hfresh jid (by omega)
        rw [hdef] at h2
        simp [defaultJob] at h2
      subst hs1
      have hjobs : ∀ k, k ≠ jid →
          (if k = jid then
             { s.jobs jid with status := JobStatus.Disputed }
           else s.jobs k) = s.jobs k := fun k hk => if_neg hk
      refine ⟨freshDefault_update hfresh hjid rfl hjobs, ?_⟩
      exact conservation_same_lock hcons rfl rfl hjobs
        (by simp [lockedAmount, h2])
  | resolve jid now h =>
      obtain ⟨h1, h2, hs1⟩ := resolveDispute_ok_elim h
      have hjid : jid < s.jobCount := by
        by_contra hge
        have hdef := hfresh jid (by omega)
        rw [hdef] at h1
        simp [defaultJob] at h1
      subst hs1
      have hjobs : ∀ k, k ≠ jid →
          (if k = jid then
             { s.jobs jid with status := JobStatus.Resolved }
           else s.jobs k) = s.jobs k := fun k hk => if_neg hk
      refine ⟨freshDefault_update hfresh hjid rfl hjobs, ?_⟩
      refine conservation_disburse hcons hjid rfl hjobs
        (by simp [lockedAmount]) ?_
      have hl : lockedAmount (s.jobs jid) = (s.jobs jid).amount := by
        simp [lockedAmount, h1]
      rw [hl]

/-- Every reachable state satisfies the full invariant. -/
theorem escrowInv_reachable {s : EscrowState} (h : Reachable s) : EscrowInv s := by
  obtain ⟨acct, hrtg⟩ := h
  induction hrtg with
  | refl => exact escrowInv_init acct
  | tail _ hstep ih => exact escrowInv_step ih hstep

/-- Reachability is closed under single steps. -/
theorem reachable_step {s s1 : EscrowState} (h : Reachable s) (hstep : Step s s1) :
    Reachable s1 := by
  obtain ⟨acct, hrtg⟩ := h
  exact ⟨acct, hrtg.tail hstep⟩

/-- Reachability is closed under step sequences. -/
theorem reachable_rtg {s s1 : EscrowState} (h : Reachable s)
    (hrtg : Relation.ReflTransGen Step s s1) : Reachable s1 := by
  induction hrtg with
  | refl => exact h
  | tail _ hstep ih => exact reachable_step ih hstep

/-- C1: global custody conservation — in every reachable state the held
balance equals the sum of `amount` over jobs in {Created, Funded,
Disputed}, and every single successful operation preserves the equality. -/
theorem custody_conservation :
    (∀ s, Reachable s → conservation s) ∧
    (∀ s s1, EscrowInv s → Step s s1 → conservation s1) := by
  exact ⟨fun s h => (escrowInv_reachable h).2,
         fun s s1 hI hstep => (escrowInv_step hI hstep).2⟩

/-- Closed witness for `custody_conservation`: the state after client 1
escrows 1 USDC into job 0 satisfies the conservation equation. -/
theorem custody_conservation_witness : conservation sPre :=
  custody_conservation.1 sPre
    ⟨exAcct, Relation.ReflTransGen.single
      (Step.create exInit sPre 1 2 1000000 100 0 0 "hash" (by decide) rfl)⟩

/-- C10: `getJob` on a never-created id does not fail — it returns the
all-default record (zero identities, amount 0, deadline 0, empty
descriptor, status Created, createdAt 0). -/
theorem getJob_uncreated :
    (∀ s id, Reachable s → s.jobCount ≤ id → getJob s id = defaultJob) ∧
    defaultJob = { client := 0, worker := 0, amount := 0, deadline := 0,
                   jobHash := "", status := JobStatus.Created,
                   createdAt := 0 } := by
  exact ⟨fun s id h hid => (escrowInv_reachable h).1 id hid, rfl⟩

/-- Closed witness for `getJob_uncreated`: id 5 was never created in
`sPre` (whose `jobCount` is 1). -/
theorem getJob_uncreated_witness : getJob sPre 5 = defaultJob :=
  getJob_uncreated.1 sPre 5
    ⟨exAcct, Relation.ReflTransGen.single
      (Step.create exInit sPre 1 2 1000000 100 0 0 "hash" (by decide) rfl)⟩
    (by decide)

/-- C6: worker write-once — once a job's `worker` is non-zero no operation
changes it, and `acceptJob` (the only operation that writes the field on
an existing job) requires it to be unassigned. -/
theorem worker_write_once :
    (∀ s s1, Reachable s → Step s s1 → ∀ id, (s.jobs id).worker ≠ 0 →
      (s1.jobs id).worker = (s.jobs id).worker) ∧
    (∀ s c id now s1, acceptJob s c id now = .ok s1 →
      (s.jobs id).worker = 0) := by
  constructor
  · intro s s1 hreach hstep id hw
    have hfresh := (escrowInv_reachable hreach).1
    cases hstep with
    | create c w a d now jid dh hc h =>
        obtain ⟨_, _, _, _, _, _, hs1⟩ := createJob_ok_elim h
        subst hs1
        rcases eq_or_ne id s.jobCount with rfl | hne
        · rw [hfresh s.jobCount le_rfl] at hw
          simp [defaultJob] at hw
        · simp [hne]
    | accept c jid now hc h =>
        obtain ⟨h1, h2, h3, h4, hs1⟩ := acceptJob_ok_elim h
        subst hs1
        rcases eq_or_ne id jid with rfl | hne
        · exact absurd h2 hw
        · simp [hne]
    | complete c jid hc h =>
        obtain ⟨h1, h2, h3, hs1⟩ := completeJob_ok_elim h
        subst hs1
        rcases eq_or_ne id jid with rfl | hne
        · simp
        · simp [hne]
    | cancel c jid now hc h =>
        obtain ⟨h1, h2, h3, hs1⟩ := cancelJob_ok_elim h
        subst hs1
        rcases eq_or_ne id jid with rfl | hne
        · simp
        · simp [hne]
    | dispute c jid hc h =>
        obtain ⟨h1, h2, hs1⟩ := disputeJob_ok_elim h
        subst hs1
        rcases eq_or_ne id jid with rfl | hne
        · simp
        · simp [hne]
    | resolve jid now h =>
        obtain ⟨h1, h2, hs1⟩ := resolveDispute_ok_elim h
        subst hs1
        rcases eq_or_ne id jid with rfl | hne
        · simp
        · simp [hne]
  · intro s c id now s1 h
    exact (acceptJob_ok_elim h).2.1

/-- Closed witness for `worker_write_once`: completing job 0 of `sPre`
leaves its pre-assigned worker untouched. -/
theorem worker_write_once_witness :
    (sPreDone.jobs 0).worker = (sPre.jobs 0).worker :=
  worker_write_once.1 sPre sPreDone
    ⟨exAcct, Relation.ReflTransGen.single
      (Step.create exInit sPre 1 2 1000000 100 0 0 "hash" (by decide) rfl)⟩
    (Step.complete sPre sPreDone 1 0 (by decide) rfl)
    0 (by decide)

/-- C4: no operation of the deployed contract ever changes the stored
deadline of an existing job — there is no `extendDeadline` entry point,
despite the README's feature table and the spec's transition table. -/
theorem no_deadline_change :
    ∀ s s1, Step s s1 → ∀ id, id < s.jobCount →
      (s1.jobs id).deadline = (s.jobs id).deadline := by
  intro s s1 hstep id hid
  cases hstep with
  | create c w a d now jid dh hc h =>
      obtain ⟨_, _, _, _, _, _, hs1⟩ := createJob_ok_elim h
      subst hs1
      have hne : id ≠ s.jobCount := by omega
      simp [hne]
  | accept c jid now hc h =>
      obtain ⟨h1, h2, h3, h4, hs1⟩ := acceptJob_ok_elim h
      subst hs1
      rcases eq_or_ne id jid with rfl | hne
      · simp
      · simp [hne]
  | complete c jid hc h =>
      obtain ⟨h1, h2, h3, hs1⟩ := completeJob_ok_elim h
      subst hs1
      rcases eq_or_ne id jid with rfl | hne
      · simp
      · simp [hne]
  | cancel c jid now hc h =>
      obtain ⟨h1, h2, h3, hs1⟩ := cancelJob_ok_elim h
      subst hs1
      rcases eq_or_ne id jid with rfl | hne
      · simp
      · simp [hne]
  | dispute c jid hc h =>
      obtain ⟨h1, h2, hs1⟩ := disputeJob_ok_elim h
      subst hs1
      rcases eq_or_ne id jid with rfl | hne
      · simp
      · simp [hne]
  | resolve jid now h =>
      obtain ⟨h1, h2, hs1⟩ := resolveDispute_ok_elim h
      subst hs1
      rcases eq_or_ne id jid with rfl | hne
      · simp
      · simp [hne]

/-- Closed witness for `no_deadline_change` at a concrete step. -/
theorem no_deadline_change_witness :
    (sPreDone.jobs 0).deadline = (sPre.jobs 0).deadline :=
  no_deadline_change sPre sPreDone
    (Step.complete sPre sPreDone 1 0 (by decide) rfl) 0 (by decide)



/-- Each step leaves a job's status alone or moves it along one amended
edge. -/
theorem step_status {s s1 : EscrowState} (hreach : Reachable s)
    (hstep : Step s s1) (id : Nat) :
    (s1.jobs id).status = (s.jobs id).status ∨
    edgeAmended (s.jobs id).status (s1.jobs id).status = true := by
  have hfresh := (escrowInv_reachable hreach).1
  cases hstep with
  | create c w a d now jid dh hc h =>
      obtain ⟨_, _, _, _, _, _, hs1⟩ := createJob_ok_elim h
      subst hs1
      rcases eq_or_ne id s.jobCount with rfl | hne
      · left
        rw [hfresh s.jobCount le_rfl]
        simp [defaultJob]
      · left
        simp [hne]
  | accept c jid now hc h =>
      obtain ⟨h1, h2, h3, h4, hs1⟩ := acceptJob_ok_elim h
      subst hs1
      rcases eq_or_ne id jid with rfl | hne
      · right
        simp [h1, edgeAmended]
      · left
        simp [hne]
  | complete c jid hc h =>
      obtain ⟨h1, h2, h3, hs1⟩ := completeJob_ok_elim h
      subst hs1
      rcases eq_or_ne id jid with rfl | hne
      · right
        rcases h2 with h | h <;> simp [h, edgeAmended]
      · left
        simp [hne]
  | cancel c jid now hc h =>
      obtain ⟨h1, h2, h3, hs1⟩ := cancelJob_ok_elim h
      subst hs1
      rcases eq_or_ne id jid with rfl | hne
      · right
        simp [h2, edgeAmended]
      · left
        simp [hne]
  | dispute c jid hc h =>
      obtain ⟨h1, h2, hs1⟩ := disputeJob_ok_elim h
      subst hs1
      rcases eq_or_ne id jid with rfl | hne
      · right
        simp [h2, edgeAmended]
      · left
        simp [hne]
  | resolve jid now h =>
      obtain ⟨h1, h2, hs1⟩ := resolveDispute_ok_elim h
      subst hs1
      rcases eq_or_ne id jid with rfl | hne
      · right
        simp [h1, edgeAmended]
      · left
        simp [hne]

/-- Every amended edge strictly increases the rank. -/
theorem edge_rank_lt : ∀ a b, edgeAmended a b = true →
    statusRank a < statusRank b := by
  intro a b
  cases a <;> cases b <;> simp [edgeAmended, statusRank]

/-- Statuses are uniquely determined by their rank. -/
theorem statusRank_inj : ∀ a b, statusRank a = statusRank b → a = b := by
  intro a b
  cases a <;> cases b <;> simp [statusRank]

/-- Along any reachable run, a job's status rank never decreases. -/
theorem rank_mono {s s1 : EscrowState} (hreach : Reachable s)
    (hrtg : Relation.ReflTransGen Step s s1) (id : Nat) :
    statusRank (s.jobs id).status ≤ statusRank (s1.jobs id).status := by
  induction hrtg with
  | refl => exact le_rfl
  | tail hsteps hstep ih =>
      rename_i t t1
      have hreacht : Reachable t := reachable_rtg hreach hsteps
      rcases step_status hreacht hstep id with heq | hedge
      · rw [heq]
        exact ih
      · exact le_trans ih (le_of_lt (edge_rank_lt _ _ hedge))

/-- No amended edge leaves a terminal status. -/
theorem edge_from_terminal : ∀ a b, isTerminal a = true →
    edgeAmended a b = false := by
  intro a b
  cases a <;> cases b <;> simp [isTerminal, edgeAmended]

/-- C5 (amended): every status change follows the graph `Created → Funded →
{Completed | Disputed}; Disputed → Resolved; Created → Cancelled` extended
with the direct edge `Created → Completed`; terminal statuses never
change; and no job ever re-enters a status it left. -/
theorem status_monotone :
    (∀ s s1, Reachable s → Step s s1 → ∀ id,
      (s1.jobs id).status = (s.jobs id).status ∨
      edgeAmended (s.jobs id).status (s1.jobs id).status = true) ∧
    (∀ s s1, Reachable s → Step s s1 → ∀ id,
      isTerminal (s.jobs id).status = true →
      (s1.jobs id).status = (s.jobs id).status) ∧
    (∀ s s1 s2 id, Reachable s →
      Relation.ReflTransGen Step s s1 → Relation.ReflTransGen Step s1 s2 →
      (s2.jobs id).status = (s.jobs id).status →
      (s1.jobs id).status = (s.jobs id).status) := by
  refine ⟨fun s s1 hr hstep id => step_status hr hstep id, ?_, ?_⟩
  · intro s s1 hr hstep id hterm
    rcases step_status hr hstep id with heq | hedge
    · exact heq
    · rw [edge_from_terminal _ _ hterm] at hedge
      exact absurd hedge (by simp)
  · intro s s1 s2 id hr h01 h12 hback
    have hm1 := rank_mono hr h01 id
    have hm2 := rank_mono (reachable_rtg hr h01) h12 id
    rw [hback] at hm2
    exact statusRank_inj _ _ (by omega)

/-- Closed witness for `status_monotone`: the concrete step completing the
pre-assigned job 0 of `sPre` takes an amended edge. -/
theorem status_monotone_witness :
    (sPreDone.jobs 0).status = (sPre.jobs 0).status ∨
    edgeAmended (sPre.jobs 0).status (sPreDone.jobs 0).status = true :=
  status_monotone.1 sPre sPreDone
    ⟨exAcct, Relation.ReflTransGen.single
      (Step.create exInit sPre 1 2 1000000 100 0 0 "hash" (by decide) rfl)⟩
    (Step.complete sPre sPreDone 1 0 (by decide) rfl) 0

/-- C5 counterexample: starting from a deployed contract, creating a job
with a pre-assigned worker and completing it moves its status directly
from Created to Completed, an edge absent from the claimed graph. -/
theorem status_graph_counterexample :
    okB (createJob exInit 1 2 1000000 100 "hash" 0) = true ∧
    (sPre.jobs 0).status = JobStatus.Created ∧
    okB (completeJob sPre 1 0) = true ∧
    (sPreDone.jobs 0).status = JobStatus.Completed ∧
    specGraphEdge JobStatus.Created JobStatus.Completed = false :=
  ⟨rfl, rfl, rfl, rfl, rfl⟩


/-- C9: a job created with a pre-assigned worker is `preassignedLocked`,
the property is preserved by every step, so the job can never be Funded
or Disputed, and `acceptJob`/`disputeJob` always fail on it. -/
theorem preassigned_never_disputed :
    (∀ s c w a d now s1 id (dh : String), w ≠ 0 →
      createJob s c w a d dh now = .ok (s1, id) → preassignedLocked s1 id) ∧
    (∀ s s1 id, Reachable s → preassignedLocked s id → Step s s1 →
      preassignedLocked s1 id) ∧
    (∀ s s1 id, Reachable s → preassignedLocked s id →
      Relation.ReflTransGen Step s s1 →
      (s1.jobs id).status ≠ JobStatus.Funded ∧
      (s1.jobs id).status ≠ JobStatus.Disputed) ∧
    (∀ s c id, preassignedLocked s id → okB (disputeJob s c id) = false) ∧
    (∀ s c id now, preassignedLocked s id → okB (acceptJob s c id now) = false) := by
  have hstep_pres : ∀ s s1 id, Reachable s → preassignedLocked s id →
      Step s s1 → preassignedLocked s1 id := by
    intro s s1 id hreach hP hstep
    obtain ⟨hw, hst⟩ := hP
    have hfresh := (escrowInv_reachable hreach).1
    cases hstep with
    | create c w a d now jid dh hc h =>
        obtain ⟨_, _, _, _, _, _, hs1⟩ := createJob_ok_elim h
        subst hs1
        rcases eq_or_ne id s.jobCount with rfl | hne
        · rw [hfresh s.jobCount le_rfl] at hw
          simp [defaultJob] at hw
        · exact ⟨by simpa [hne] using hw, by simpa [hne] using hst⟩
    | accept c jid now hc h =>
        obtain ⟨h1, h2, h3, h4, hs1⟩ := acceptJob_ok_elim h
        subst hs1
        rcases eq_or_ne id jid with rfl | hne
        · exact absurd h2 hw
        · exact ⟨by simpa [hne] using hw, by simpa [hne] using hst⟩
    | complete c jid hc h =>
        obtain ⟨h1, h2, h3, hs1⟩ := completeJob_ok_elim h
        subst hs1
        rcases eq_or_ne id jid with rfl | hne
        · exact ⟨by simpa using hw, by simp⟩
        · exact ⟨by simpa [hne] using hw, by simpa [hne] using hst⟩
    | cancel c jid now hc h =>
        obtain ⟨h1, h2, h3, hs1⟩ := cancelJob_ok_elim h
        subst hs1
        rcases eq_or_ne id jid with rfl | hne
        · exact ⟨by simpa using hw, by simp⟩
        · exact ⟨by simpa [hne] using hw, by simpa [hne] using hst⟩
    | dispute c jid hc h =>
        obtain ⟨h1, h2, hs1⟩ := disputeJob_ok_elim h
        subst hs1
        rcases eq_or_ne id jid with rfl | hne
        · rw [h2] at hst
          simp at hst
        · exact ⟨by simpa [hne] using hw, by simpa [hne] using hst⟩
    | resolve jid now h =>
        obtain ⟨h1, h2, hs1⟩ := resolveDispute_ok_elim h
        subst hs1
        rcases eq_or_ne id jid with rfl | hne
        · rw [h1] at hst
          simp at hst
        · exact ⟨by simpa [hne] using hw, by simpa [hne] using hst⟩
  refine ⟨?_, hstep_pres, ?_, ?_, ?_⟩
  · intro s c w a d now s1 id dh hwne h
    obtain ⟨_, _, _, _, _, hjid, hs1⟩ := createJob_ok_elim h
    subst hs1
    subst hjid
    exact ⟨by simpa using hwne, by simp⟩
  · intro s s1 id hreach hP hrtg
    have hP1 : preassignedLocked s1 id := by
      induction hrtg with
      | refl => exact hP
      | tail hsteps hstep ih =>
          rename_i t t1
          exact hstep_pres t t1 id (reachable_rtg hreach hsteps) ih hstep
    obtain ⟨_, hst⟩ := hP1
    constructor
    · rcases hst with h | h | h <;> simp [h]
    · rcases hst with h | h | h <;> simp [h]
  · intro s c id hP
    obtain ⟨hw, hst⟩ := hP
    cases hd : disputeJob s c id with
    | ok s1 =>
        obtain ⟨_, h2, _⟩ := disputeJob_ok_elim hd
        rcases hst with h | h | h <;> rw [h] at h2 <;> exact absurd h2 (by simp)
    | error e => simp [okB]
  · intro s c id now hP
    obtain ⟨hw, hst⟩ := hP
    cases hd : acceptJob s c id now with
    | ok s1 =>
        obtain ⟨_, h2, _⟩ := acceptJob_ok_elim hd
        exact absurd h2 hw
    | error e => simp [okB]

/-- Closed witness for `preassigned_never_disputed`: job 0 of `sPre` was
created with worker 2 pre-assigned, hence is `preassignedLocked`. -/
theorem preassigned_never_disputed_witness : preassignedLocked sPre 0 :=
  preassigned_never_disputed.1 exInit 1 2 1000000 100 0 sPre 0 "hash"
    (by decide) rfl
